import Mathlib

/-!
Verification of the banking API in `src/main.py`.

The service keeps a global in-memory dict `fake_users_db` mapping a username to
a record `{api_key, balance, currency}`; `get_current_user` authenticates an
`X-API-Key` header by scanning the dict for a matching `api_key`; the route
handlers `get_balance`, `deposit` and `withdraw` then read or mutate the
authenticated user's balance.

Numbers: request amounts are Python `float`s (pydantic `Transaction.amount:
float`) and balances become floats after the first mutation.  We model a float
value as either an exact rational, `+inf`, `-inf` or `nan`, with IEEE-754
comparison and special-value rules; finite arithmetic is modelled exactly
(no rounding), which is faithful for every comparison and for the special-value
propagation the handlers depend on.
-/

/-- Model of a Python `float` value: an exact rational, or one of the IEEE
special values.  Finite arithmetic is exact in this model. -/
inductive FloatVal where
  | finite (q : ℚ)
  | inf
  | neginf
  | nan
deriving DecidableEq, Repr

namespace FloatVal

/-- IEEE `<=` on float values: any comparison with `nan` is false. -/
def fle : FloatVal → FloatVal → Bool
  | .nan, _ => false
  | _, .nan => false
  | .neginf, _ => true
  | _, .neginf => false
  | .finite a, .finite b => decide (a ≤ b)
  | .finite _, .inf => true
  | .inf, .finite _ => false
  | .inf, .inf => true

/-- IEEE `<` on float values: any comparison with `nan` is false. -/
def flt : FloatVal → FloatVal → Bool
  | .nan, _ => false
  | _, .nan => false
  | .neginf, .neginf => false
  | .neginf, _ => true
  | _, .neginf => false
  | .finite a, .finite b => decide (a < b)
  | .finite _, .inf => true
  | .inf, _ => false

/-- IEEE negation of a float value. -/
def fneg : FloatVal → FloatVal
  | .nan => .nan
  | .inf => .neginf
  | .neginf => .inf
  | .finite q => .finite (-q)

/-- IEEE addition, with finite addition modelled exactly:
`inf + (-inf) = nan`, `nan` propagates. -/
def fadd : FloatVal → FloatVal → FloatVal
  | .nan, _ => .nan
  | _, .nan => .nan
  | .inf, .neginf => .nan
  | .neginf, .inf => .nan
  | .inf, _ => .inf
  | _, .inf => .inf
  | .neginf, _ => .neginf
  | _, .neginf => .neginf
  | .finite a, .finite b => .finite (a + b)

/-- IEEE subtraction: `a - b = a + (-b)`; in particular `inf - inf = nan`. -/
def fsub (a b : FloatVal) : FloatVal := fadd a (fneg b)

end FloatVal

open FloatVal

/-- One record of `fake_users_db`: `{"api_key": ..., "balance": ..., "currency": ...}`. -/
structure Account where
  api_key : String
  balance : FloatVal
  currency : String
deriving DecidableEq, Repr

/-- The failure outcomes the service can produce.
`unauthenticated` is the 401 raised by `get_current_user`;
`invalidAmount` the 400 "amount must be positive";
`insufficientFunds` the 400 "Insufficient funds.";
`validationError` the 422 FastAPI returns when a required header or body field
is absent, before the handler runs;
`internalError` models the uncaught `KeyError` (HTTP 500) that a db lookup of a
missing user would raise (unreachable for an authenticated user). -/
inductive ApiError where
  | unauthenticated
  | invalidAmount
  | insufficientFunds
  | validationError
  | internalError
deriving DecidableEq, Repr

deriving instance DecidableEq for Except

/-- The in-memory database: a Python dict modelled as an association list
(insertion-ordered, unique keys in the seed data). -/
abbrev Db := List (String × Account)

/-- The seed database from `main.py` lines 27-30. -/
def fake_users_db : Db :=
  [("user1", ⟨"user1_key", .finite 2000, "PKR"⟩),
   ("user2", ⟨"user2_key", .finite 5000, "PKR"⟩)]

/-- Dict lookup `db[u]`. -/
def dbGet : Db → String → Option Account
  | [], _ => none
  | p :: t, u => if p.1 == u then some p.2 else dbGet t u

/-- `db[u]["balance"] = b`: rewrite the balance of the entry keyed `u`
(every entry with that key; a dict has at most one). -/
def dbSetBalance : Db → String → FloatVal → Db
  | [], _, _ => []
  | p :: t, u, b =>
    if p.1 == u then (p.1, { p.2 with balance := b }) :: dbSetBalance t u b
    else p :: dbSetBalance t u b

/-- The `for user, data in fake_users_db.items()` loop of `get_current_user`:
return the first username whose stored `api_key` equals the header value,
else raise 401. -/
def auth_scan : Db → String → Except ApiError String
  | [], _ => .error .unauthenticated
  | p :: t, key => if p.2.api_key == key then .ok p.1 else auth_scan t key

/-- `get_current_user` (`main.py` lines 43-58): scan the dict in order for an
entry whose `api_key` equals the provided header and return its username,
else 401.  `none` models an absent `X-API-Key` header, which FastAPI rejects
with a 422 validation error before this dependency runs (`Header(...)` makes
the header required). -/
def get_current_user (db : Db) : Option String → Except ApiError String
  | none => .error .validationError
  | some key => auth_scan db key

/-- `get_balance` handler body (`main.py` lines 64-75), after authentication:
return the user's balance and currency. -/
def get_balance (db : Db) (current_user : String) :
    Except ApiError (String × FloatVal × String) :=
  match dbGet db current_user with
  | none => .error .internalError
  | some a => .ok (current_user, a.balance, a.currency)

/-- `deposit` handler body (`main.py` lines 81-99), after authentication:
reject `amount <= 0` with a 400, else `balance += amount` and return the
post-mutation balance.  Returns the (possibly mutated) db together with the
outcome; the raise precedes the mutation, so on failure the db is returned
as received. -/
def deposit (db : Db) (current_user : String) (amount : FloatVal) :
    Db × Except ApiError FloatVal :=
  if fle amount (.finite 0) then (db, .error .invalidAmount)
  else
    match dbGet db current_user with
    | none => (db, .error .internalError)
    | some acct =>
      (dbSetBalance db current_user (fadd acct.balance amount),
       .ok (fadd acct.balance amount))

/-- `withdraw` handler body (`main.py` lines 105-132), after authentication:
reject `amount <= 0` with a 400, reject `balance < amount` with
"Insufficient funds.", else `balance -= amount` and return the post-mutation
balance. -/
def withdraw (db : Db) (current_user : String) (amount : FloatVal) :
    Db × Except ApiError FloatVal :=
  if fle amount (.finite 0) then (db, .error .invalidAmount)
  else
    match dbGet db current_user with
    | none => (db, .error .internalError)
    | some acct =>
      if flt acct.balance amount then (db, .error .insufficientFunds)
      else
        (dbSetBalance db current_user (fsub acct.balance amount),
         .ok (fsub acct.balance amount))

/-- The `/balance/` route: authenticate, then run the handler. -/
def get_balanceRoute (db : Db) (key : Option String) :
    Except ApiError (String × FloatVal × String) :=
  match get_current_user db key with
  | .error e => .error e
  | .ok u => get_balance db u

/-- The `/deposit/` route: authenticate, then run the handler. -/
def depositRoute (db : Db) (key : Option String) (amount : FloatVal) :
    Db × Except ApiError FloatVal :=
  match get_current_user db key with
  | .error e => (db, .error e)
  | .ok u => deposit db u amount

/-- The `/withdraw/` route: authenticate, then run the handler. -/
def withdrawRoute (db : Db) (key : Option String) (amount : FloatVal) :
    Db × Except ApiError FloatVal :=
  match get_current_user db key with
  | .error e => (db, .error e)
  | .ok u => withdraw db u amount

/-- One inbound request: a credential (possibly absent) and, for mutations,
an amount. -/
inductive Op where
  | depositOp (key : Option String) (amount : FloatVal)
  | withdrawOp (key : Option String) (amount : FloatVal)
  | getBalanceOp (key : Option String)
deriving DecidableEq, Repr

/-- The db after serving one request. -/
def execOp (db : Db) : Op → Db
  | .depositOp k a => (depositRoute db k a).1
  | .withdrawOp k a => (withdrawRoute db k a).1
  | .getBalanceOp _ => db

/-- The db after serving a sequence of requests in order. -/
def execOps (db : Db) : List Op → Db
  | [] => db
  | op :: rest => execOps (execOp db op) rest

/-! ### Sign lemmas for the float model -/

/-- An amount strictly above a non-negative value is not `<= 0`. -/
theorem fle_zero_false_of_lt {b a : FloatVal} (h1 : flt b a = true)
    (h2 : flt b (.finite 0) = false) : fle a (.finite 0) = false := by
  cases b <;> cases a <;> simp_all [flt, fle] <;> linarith

/-- A strictly positive amount is not `<= 0`. -/
theorem fle_zero_false_of_pos {a : FloatVal} (h : flt (.finite 0) a = true) :
    fle a (.finite 0) = false := by
  cases a <;> simp_all [flt, fle] <;> linarith

/-- Adding an amount that is not `<= 0` to a non-negative balance keeps it
non-negative (in particular `nan` results are not negative). -/
theorem fadd_not_neg {b a : FloatVal} (hb : flt b (.finite 0) = false)
    (ha : fle a (.finite 0) = false) : flt (fadd b a) (.finite 0) = false := by
  cases b <;> cases a <;> simp_all [flt, fle, fadd] <;> linarith

/-- Subtracting an amount that is not `<= 0` and not strictly above the
balance keeps a non-negative balance non-negative. -/
theorem fsub_not_neg {b a : FloatVal} (hb : flt b (.finite 0) = false)
    (ha : fle a (.finite 0) = false) (hba : flt b a = false) :
    flt (fsub b a) (.finite 0) = false := by
  cases b <;> cases a <;> simp_all [flt, fle, fsub, fadd, fneg] <;> linarith

/-! ### Lemmas about the db operations -/

/-- A successful lookup returns the record of some entry of the db. -/
theorem dbGet_mem {db : Db} {u : String} {acct : Account}
    (h : dbGet db u = some acct) : ∃ p ∈ db, p.2 = acct := by
  induction db with
  | nil => simp [dbGet] at h
  | cons p t ih =>
    simp only [dbGet] at h
    by_cases hpu : (p.1 == u) = true
    · rw [if_pos hpu] at h
      exact ⟨p, List.mem_cons_self p t, Option.some.inj h⟩
    · rw [if_neg hpu] at h
      rcases ih h with ⟨q, hq, hq2⟩
      exact ⟨q, List.mem_cons_of_mem p hq, hq2⟩

/-- Updating one user's balance does not change the list of keys. -/
theorem dbSetBalance_keys (db : Db) (u : String) (b : FloatVal) :
    (dbSetBalance db u b).map Prod.fst = db.map Prod.fst := by
  induction db with
  | nil => rfl
  | cons p t ih =>
    by_cases hpu : (p.1 == u) = true
    · simp [dbSetBalance, hpu, ih]
    · simp [dbSetBalance, hpu, ih]

/-- Updating user `u`'s balance leaves every other key's record unchanged. -/
theorem dbGet_dbSetBalance_ne {db : Db} {u k : String} (b : FloatVal)
    (h : k ≠ u) : dbGet (dbSetBalance db u b) k = dbGet db k := by
  induction db with
  | nil => rfl
  | cons p t ih =>
    by_cases hpu : (p.1 == u) = true
    · have hpk : (p.1 == k) = false := by
        rw [beq_eq_false_iff_ne]
        intro hk
        exact h (hk ▸ (beq_iff_eq.mp hpu))
      simp [dbSetBalance, dbGet, hpu, hpk, ih]
    · by_cases hpk : (p.1 == k) = true
      · simp [dbSetBalance, dbGet, hpu, hpk]
      · simp [dbSetBalance, dbGet, hpu, hpk, ih]

/-- Updating user `u`'s balance changes exactly that field of `u`'s record. -/
theorem dbGet_dbSetBalance_self {db : Db} {u : String} {acct : Account}
    (b : FloatVal) (h : dbGet db u = some acct) :
    dbGet (dbSetBalance db u b) u = some { acct with balance := b } := by
  induction db with
  | nil => simp [dbGet] at h
  | cons p t ih =>
    by_cases hpu : (p.1 == u) = true
    · simp [dbGet, hpu] at h
      simp [dbSetBalance, dbGet, hpu, h]
    · simp [dbGet, hpu] at h
      simp [dbSetBalance, dbGet, hpu, ih h]

/-! ### The non-negativity invariant -/

/-- Every balance in the db is not negative (in the float order; `nan` and
`inf` balances are not negative). -/
def nonNegDb (db : Db) : Prop :=
  ∀ p ∈ db, flt p.2.balance (.finite 0) = false

/-- A looked-up record of a non-negative db has a non-negative balance. -/
theorem nonNegDb_dbGet {db : Db} {u : String} {acct : Account}
    (hdb : nonNegDb db) (h : dbGet db u = some acct) :
    flt acct.balance (.finite 0) = false := by
  rcases dbGet_mem h with ⟨p, hp, hp2⟩
  exact hp2 ▸ hdb p hp

/-- Writing a non-negative balance preserves db non-negativity. -/
theorem nonNegDb_dbSetBalance {db : Db} {u : String} {b : FloatVal}
    (hb : flt b (.finite 0) = false) (hdb : nonNegDb db) :
    nonNegDb (dbSetBalance db u b) := by
  induction db with
  | nil => intro p hp; simp [dbSetBalance] at hp
  | cons p t ih =>
    have hdbt : nonNegDb t := fun q hq => hdb q (List.mem_cons_of_mem p hq)
    have hdbp := hdb p (List.mem_cons_self p t)
    intro q hq
    by_cases hpu : (p.1 == u) = true
    · simp [dbSetBalance, hpu] at hq
      rcases hq with hq | hq
      · rw [hq]; exact hb
      · exact ih hdbt q hq
    · simp [dbSetBalance, hpu] at hq
      rcases hq with hq | hq
      · rw [hq]; exact hdbp
      · exact ih hdbt q hq

/-- The db returned by `deposit` is either untouched (failure) or the single
balance update of the authenticated user. -/
theorem deposit_fst_cases (db : Db) (u : String) (a : FloatVal) :
    (deposit db u a).1 = db ∨
    ∃ acct, dbGet db u = some acct ∧ fle a (.finite 0) = false ∧
      (deposit db u a).1 = dbSetBalance db u (fadd acct.balance a) := by
  unfold deposit
  by_cases hle : fle a (.finite 0) = true
  · left; simp [hle]
  · cases hg : dbGet db u with
    | none => left; simp [hle, hg]
    | some acct =>
      right
      refine ⟨acct, rfl, by simpa using hle, ?_⟩
      simp [hle, hg]

/-- The db returned by `withdraw` is either untouched (failure) or the single
balance update of the authenticated user. -/
theorem withdraw_fst_cases (db : Db) (u : String) (a : FloatVal) :
    (withdraw db u a).1 = db ∨
    ∃ acct, dbGet db u = some acct ∧ fle a (.finite 0) = false ∧
      flt acct.balance a = false ∧
      (withdraw db u a).1 = dbSetBalance db u (fsub acct.balance a) := by
  unfold withdraw
  by_cases hle : fle a (.finite 0) = true
  · left; simp [hle]
  · cases hg : dbGet db u with
    | none => left; simp [hle, hg]
    | some acct =>
      by_cases hlt : flt acct.balance a = true
      · left; simp [hle, hg, hlt]
      · right
        refine ⟨acct, rfl, by simpa using hle, by simpa using hlt, ?_⟩
        simp [hle, hg, hlt]

/-- `deposit` preserves db non-negativity. -/
theorem nonNegDb_deposit {db : Db} {u : String} {a : FloatVal}
    (h : nonNegDb db) : nonNegDb (deposit db u a).1 := by
  rcases deposit_fst_cases db u a with hc | ⟨acct, hg, hle, hc⟩
  · rw [hc]; exact h
  · rw [hc]
    exact nonNegDb_dbSetBalance (fadd_not_neg (nonNegDb_dbGet h hg) hle) h

/-- `withdraw` preserves db non-negativity. -/
theorem nonNegDb_withdraw {db : Db} {u : String} {a : FloatVal}
    (h : nonNegDb db) : nonNegDb (withdraw db u a).1 := by
  rcases withdraw_fst_cases db u a with hc | ⟨acct, hg, hle, hlt, hc⟩
  · rw [hc]; exact h
  · rw [hc]
    exact nonNegDb_dbSetBalance
      (fsub_not_neg (nonNegDb_dbGet h hg) hle hlt) h

/-- Serving one request preserves db non-negativity. -/
theorem nonNegDb_execOp {db : Db} (op : Op) (h : nonNegDb db) :
    nonNegDb (execOp db op) := by
  cases op with
  | depositOp k a =>
    show nonNegDb (depositRoute db k a).1
    unfold depositRoute
    cases hgc : get_current_user db k with
    | error e => simpa [hgc] using h
    | ok u => simpa [hgc] using nonNegDb_deposit (u := u) (a := a) h
  | withdrawOp k a =>
    show nonNegDb (withdrawRoute db k a).1
    unfold withdrawRoute
    cases hgc : get_current_user db k with
    | error e => simpa [hgc] using h
    | ok u => simpa [hgc] using nonNegDb_withdraw (u := u) (a := a) h
  | getBalanceOp k => exact h

/-- Serving any request sequence preserves db non-negativity. -/
theorem nonNegDb_execOps (ops : List Op) {db : Db} (h : nonNegDb db) :
    nonNegDb (execOps db ops) := by
  induction ops generalizing db with
  | nil => exact h
  | cons op rest ih => exact ih (nonNegDb_execOp op h)

/-- C1: for every account and every sequence of deposit and withdraw requests
(any credentials, any amounts, valid or invalid), the account's balance is
never negative before or after any operation: every state reachable from the
seed db by serving requests has only non-negative balances. -/
theorem balance_never_negative (ops : List Op) (u : String) (acct : Account)
    (h : dbGet (execOps fake_users_db ops) u = some acct) :
    flt acct.balance (.finite 0) = false := by
  refine nonNegDb_dbGet (nonNegDb_execOps ops ?_) h
  intro p hp
  simp [fake_users_db] at hp
  rcases hp with hp | hp <;> rw [hp]
  · rfl
  · rfl

/-- Concrete instance of `balance_never_negative`: user1's seed balance. -/
theorem balance_never_negative_witness :
    dbGet (execOps fake_users_db []) "user1" =
      some ⟨"user1_key", .finite 2000, "PKR"⟩ ∧
    flt (Account.balance ⟨"user1_key", .finite 2000, "PKR"⟩)
      (.finite 0) = false :=
  ⟨by decide, balance_never_negative [] "user1" _ (by decide)⟩

/-- C4: for every db state, user and amount `<= 0`, both deposit and withdraw
fail with InvalidAmount and the db — hence the account's balance — is
unchanged by the failed call. -/
theorem nonpositive_amount_invalid (db : Db) (u : String) (a : FloatVal)
    (h : fle a (.finite 0) = true) :
    deposit db u a = (db, .error .invalidAmount) ∧
    withdraw db u a = (db, .error .invalidAmount) := by
  constructor
  · simp [deposit, h]
  · simp [withdraw, h]

/-- Concrete instance of `nonpositive_amount_invalid`: amount `-5`. -/
theorem nonpositive_amount_invalid_witness :
    fle (.finite (-5)) (.finite 0) = true ∧
    deposit fake_users_db "user1" (.finite (-5)) =
      (fake_users_db, .error .invalidAmount) ∧
    withdraw fake_users_db "user1" (.finite (-5)) =
      (fake_users_db, .error .invalidAmount) :=
  ⟨by decide, nonpositive_amount_invalid fake_users_db "user1" _ (by decide)⟩

/-- The seed db has only non-negative balances. -/
theorem nonNegDb_seed : nonNegDb fake_users_db := by
  intro p hp
  simp [fake_users_db] at hp
  rcases hp with hp | hp <;> rw [hp] <;> rfl

/-- C2: in every state the service can reach, a withdraw of an amount
strictly greater than the account's current balance fails with
InsufficientFunds and the db — hence the balance — is unchanged by the
failed call. -/
theorem overdraft_insufficient_funds (ops : List Op) (u : String)
    (acct : Account) (a : FloatVal)
    (hg : dbGet (execOps fake_users_db ops) u = some acct)
    (hgt : flt acct.balance a = true) :
    withdraw (execOps fake_users_db ops) u a =
      (execOps fake_users_db ops, .error .insufficientFunds) := by
  have hnn : flt acct.balance (.finite 0) = false :=
    nonNegDb_dbGet (nonNegDb_execOps ops nonNegDb_seed) hg
  have hle : fle a (.finite 0) = false := fle_zero_false_of_lt hgt hnn
  simp [withdraw, hle, hg, hgt]

/-- Concrete instance of `overdraft_insufficient_funds`: withdrawing 3000
from user1's seed balance of 2000. -/
theorem overdraft_insufficient_funds_witness :
    dbGet fake_users_db "user1" = some ⟨"user1_key", .finite 2000, "PKR"⟩ ∧
    flt (.finite 2000) (.finite 3000) = true ∧
    withdraw fake_users_db "user1" (.finite 3000) =
      (fake_users_db, .error .insufficientFunds) :=
  ⟨by decide, by decide,
   overdraft_insufficient_funds [] "user1"
     ⟨"user1_key", .finite 2000, "PKR"⟩ (.finite 3000)
     (by decide) (by decide)⟩

/-- C3 counterexample: non-finite amounts are not rejected.  A deposit of
+infinity succeeds (setting the balance to +infinity) and a withdraw of NaN
succeeds (setting the balance to NaN); neither fails with InvalidAmount. -/
theorem nonfinite_amount_not_rejected :
    (deposit fake_users_db "user1" .inf).2 = .ok .inf ∧
    (deposit fake_users_db "user1" .inf).2 ≠ .error .invalidAmount ∧
    (withdraw fake_users_db "user1" .nan).2 = .ok .nan ∧
    (withdraw fake_users_db "user1" .nan).2 ≠ .error .invalidAmount := by
  refine ⟨?_, ?_, ?_, ?_⟩ <;> decide

/-- C3 amended: deposit and withdraw fail with InvalidAmount exactly when
`amount <= 0` in the float order, and then leave the db unchanged; amounts
that are not `<= 0` — including NaN, +infinity and arbitrarily large finite
values — are never rejected as invalid (there is no finiteness or magnitude
check and no clamping). -/
theorem invalid_amount_iff (db : Db) (u : String) (acct : Account)
    (a : FloatVal) (hg : dbGet db u = some acct) :
    ((deposit db u a).2 = .error .invalidAmount ↔ fle a (.finite 0) = true) ∧
    ((withdraw db u a).2 = .error .invalidAmount ↔ fle a (.finite 0) = true) ∧
    (fle a (.finite 0) = true →
      deposit db u a = (db, .error .invalidAmount) ∧
      withdraw db u a = (db, .error .invalidAmount)) := by
  by_cases hle : fle a (.finite 0) = true
  · simp [deposit, withdraw, hle]
  · have hle' : fle a (.finite 0) = false := by simpa using hle
    by_cases hlt : flt acct.balance a = true
    · simp [deposit, withdraw, hle', hg, hlt]
    · have hlt' : flt acct.balance a = false := by simpa using hlt
      simp [deposit, withdraw, hle', hg, hlt']

/-- Concrete instance of `invalid_amount_iff` at amount 1 on user1. -/
theorem invalid_amount_iff_witness :
    dbGet fake_users_db "user1" = some ⟨"user1_key", .finite 2000, "PKR"⟩ ∧
    ((deposit fake_users_db "user1" (.finite 1)).2 = .error .invalidAmount ↔
      fle (.finite 1) (.finite 0) = true) ∧
    ((withdraw fake_users_db "user1" (.finite 1)).2 = .error .invalidAmount ↔
      fle (.finite 1) (.finite 0) = true) :=
  ⟨by decide,
   (invalid_amount_iff fake_users_db "user1"
     ⟨"user1_key", .finite 2000, "PKR"⟩ (.finite 1) (by decide)).1,
   (invalid_amount_iff fake_users_db "user1"
     ⟨"user1_key", .finite 2000, "PKR"⟩ (.finite 1) (by decide)).2.1⟩

/-- C7: for an account record and a strictly positive amount, deposit
succeeds, stores `balance + amount` as the user's balance and returns exactly
that post-mutation balance; and whenever withdraw succeeds its returned value
is `balance - amount`, which is exactly what is stored for the user. -/
theorem success_updates_balance (db : Db) (u : String) (acct : Account)
    (a : FloatVal) (hg : dbGet db u = some acct)
    (hpos : flt (.finite 0) a = true) :
    (deposit db u a).2 = .ok (fadd acct.balance a) ∧
    dbGet (deposit db u a).1 u =
      some { acct with balance := fadd acct.balance a } ∧
    ∀ r, (withdraw db u a).2 = .ok r →
      r = fsub acct.balance a ∧
      dbGet (withdraw db u a).1 u =
        some { acct with balance := fsub acct.balance a } := by
  have hle : fle a (.finite 0) = false := fle_zero_false_of_pos hpos
  refine ⟨?_, ?_, ?_⟩
  · simp [deposit, hle, hg]
  · simp only [deposit, hle, hg]
    simp only [Bool.false_eq_true, if_false]
    exact dbGet_dbSetBalance_self _ hg
  · intro r hr
    by_cases hlt : flt acct.balance a = true
    · simp [withdraw, hle, hg, hlt] at hr
    · have hlt' : flt acct.balance a = false := by simpa using hlt
      simp [withdraw, hle, hg, hlt'] at hr ⊢
      exact ⟨hr.symm, dbGet_dbSetBalance_self _ hg⟩

/-- Concrete instance of `success_updates_balance`: depositing 500 into
user1's balance of 2000. -/
theorem success_updates_balance_witness :
    dbGet fake_users_db "user1" = some ⟨"user1_key", .finite 2000, "PKR"⟩ ∧
    flt (.finite 0) (.finite 500) = true ∧
    (deposit fake_users_db "user1" (.finite 500)).2 =
      .ok (fadd (.finite 2000) (.finite 500)) :=
  ⟨by decide, by decide,
   (success_updates_balance fake_users_db "user1"
     ⟨"user1_key", .finite 2000, "PKR"⟩ (.finite 500)
     (by decide) (by decide)).1⟩

/-- C10 counterexample: a positive balance whose exact withdrawal does not
return 0.  From the seed db, depositing +infinity into user1 succeeds and
leaves the positive balance +infinity; withdrawing exactly that balance then
succeeds but returns NaN (`inf - inf`), not 0. -/
theorem withdraw_exact_balance_not_zero :
    (deposit fake_users_db "user1" .inf).2 = .ok .inf ∧
    dbGet (deposit fake_users_db "user1" .inf).1 "user1" =
      some ⟨"user1_key", .inf, "PKR"⟩ ∧
    flt (.finite 0) .inf = true ∧
    (withdraw (deposit fake_users_db "user1" .inf).1 "user1" .inf).2 =
      .ok .nan ∧
    (Except.ok .nan : Except ApiError FloatVal) ≠ .ok (.finite 0) := by
  refine ⟨?_, ?_, ?_, ?_, ?_⟩ <;> decide

/-- C10 amended: for every account with a finite strictly positive balance B,
withdrawing exactly B passes the strict less-than insufficiency check,
succeeds, and stores and returns a balance of exactly 0. -/
theorem withdraw_exact_finite_balance (db : Db) (u : String) (acct : Account)
    (b : ℚ) (hg : dbGet db u = some acct) (hb : acct.balance = .finite b)
    (hpos : 0 < b) :
    (withdraw db u acct.balance).2 = .ok (.finite 0) ∧
    dbGet (withdraw db u acct.balance).1 u =
      some { acct with balance := .finite 0 } := by
  have hle : fle acct.balance (.finite 0) = false := by
    rw [hb]; simp [fle]; linarith
  have hlt : flt acct.balance acct.balance = false := by
    rw [hb]; simp [flt]
  have hsub : fsub acct.balance acct.balance = .finite 0 := by
    rw [hb]; simp [fsub, fadd, fneg]
  constructor
  · simp [withdraw, hle, hg, hlt, hsub]
  · simp only [withdraw, hle, hg, hlt, Bool.false_eq_true, if_false]
    rw [hsub]
    exact dbGet_dbSetBalance_self _ hg

/-- Concrete instance of `withdraw_exact_finite_balance`: withdrawing user1's
full seed balance of 2000 empties the account. -/
theorem withdraw_exact_finite_balance_witness :
    dbGet fake_users_db "user1" = some ⟨"user1_key", .finite 2000, "PKR"⟩ ∧
    (0 : ℚ) < 2000 ∧
    (withdraw fake_users_db "user1" (.finite 2000)).2 = .ok (.finite 0) :=
  ⟨by decide, by decide,
   (withdraw_exact_finite_balance fake_users_db "user1"
     ⟨"user1_key", .finite 2000, "PKR"⟩ 2000
     (by decide) rfl (by decide)).1⟩

/-- C8: a deposit or withdraw call for user `u`, whether it succeeds or
fails, leaves every other key's record unchanged, never changes `u`'s
`api_key` or `currency` fields, and never changes the list of account keys. -/
theorem mutation_frame (db : Db) (u : String) (a : FloatVal) :
    (∀ k, k ≠ u →
      dbGet (deposit db u a).1 k = dbGet db k ∧
      dbGet (withdraw db u a).1 k = dbGet db k) ∧
    (∀ acct acct', dbGet db u = some acct →
      (dbGet (deposit db u a).1 u = some acct' →
        acct'.api_key = acct.api_key ∧ acct'.currency = acct.currency) ∧
      (dbGet (withdraw db u a).1 u = some acct' →
        acct'.api_key = acct.api_key ∧ acct'.currency = acct.currency)) ∧
    (deposit db u a).1.map Prod.fst = db.map Prod.fst ∧
    (withdraw db u a).1.map Prod.fst = db.map Prod.fst := by
  refine ⟨?_, ?_, ?_, ?_⟩
  · intro k hk
    constructor
    · rcases deposit_fst_cases db u a with hc | ⟨acct2, hg2, hle, hc⟩ <;>
        rw [hc]
      exact dbGet_dbSetBalance_ne _ hk
    · rcases withdraw_fst_cases db u a with hc | ⟨acct2, hg2, hle, hlt, hc⟩ <;>
        rw [hc]
      exact dbGet_dbSetBalance_ne _ hk
  · intro acct acct' hg
    constructor
    · intro hg'
      rcases deposit_fst_cases db u a with hc | ⟨acct2, hg2, hle, hc⟩
      · rw [hc, hg] at hg'
        cases Option.some.inj hg'
        exact ⟨rfl, rfl⟩
      · rw [hc, dbGet_dbSetBalance_self _ hg2] at hg'
        cases Option.some.inj hg'
        cases Option.some.inj (hg2.symm.trans hg)
        exact ⟨rfl, rfl⟩
    · intro hg'
      rcases withdraw_fst_cases db u a with hc | ⟨acct2, hg2, hle, hlt, hc⟩
      · rw [hc, hg] at hg'
        cases Option.some.inj hg'
        exact ⟨rfl, rfl⟩
      · rw [hc, dbGet_dbSetBalance_self _ hg2] at hg'
        cases Option.some.inj hg'
        cases Option.some.inj (hg2.symm.trans hg)
        exact ⟨rfl, rfl⟩
  · rcases deposit_fst_cases db u a with hc | ⟨acct2, hg2, hle, hc⟩ <;>
      rw [hc]
    exact dbSetBalance_keys db u _
  · rcases withdraw_fst_cases db u a with hc | ⟨acct2, hg2, hle, hlt, hc⟩ <;>
      rw [hc]
    exact dbSetBalance_keys db u _

/-- Concrete instance of `mutation_frame`: user2's record is untouched by a
deposit into user1's account. -/
theorem mutation_frame_witness :
    dbGet (deposit fake_users_db "user1" (.finite 7)).1 "user2" =
      dbGet fake_users_db "user2" ∧
    (deposit fake_users_db "user1" (.finite 7)).1.map Prod.fst =
      fake_users_db.map Prod.fst :=
  ⟨((mutation_frame fake_users_db "user1" (.finite 7)).1 "user2"
     (by decide)).1,
   (mutation_frame fake_users_db "user1" (.finite 7)).2.2.1⟩

/-- If no entry's stored `api_key` equals the presented key, the scan of
`get_current_user` falls through to the 401. -/
theorem auth_scan_none {db : Db} {k : String}
    (h : ∀ p ∈ db, (p.2.api_key == k) = false) :
    auth_scan db k = .error .unauthenticated := by
  induction db with
  | nil => rfl
  | cons p t ih =>
    have hp := h p (List.mem_cons_self p t)
    simp only [auth_scan, hp, Bool.false_eq_true, if_false]
    exact ih fun q hq => h q (List.mem_cons_of_mem p hq)

/-- C5 counterexample: with the `X-API-Key` header absent, the protected
routes fail with FastAPI's 422 request-validation error, not with the 401
Unauthenticated error the claim requires. -/
theorem absent_credential_not_unauthenticated :
    (depositRoute fake_users_db none (.finite 100)).2 =
      .error .validationError ∧
    (depositRoute fake_users_db none (.finite 100)).2 ≠
      .error .unauthenticated ∧
    get_balanceRoute fake_users_db none = .error .validationError ∧
    (withdrawRoute fake_users_db none (.finite 100)).2 =
      .error .validationError := by
  refine ⟨?_, ?_, ?_, ?_⟩ <;> decide

/-- C5 amended: a credential that matches no stored `api_key` (the empty
string is such a credential in the seed db) yields Unauthenticated on all
three protected routes and changes no ledger state; an absent credential is
rejected by request validation (HTTP 422) before the handler runs, likewise
changing no ledger state. -/
theorem bad_credential_no_state_change (db : Db) (k : String)
    (a : FloatVal) (h : ∀ p ∈ db, (p.2.api_key == k) = false) :
    get_balanceRoute db (some k) = .error .unauthenticated ∧
    depositRoute db (some k) a = (db, .error .unauthenticated) ∧
    withdrawRoute db (some k) a = (db, .error .unauthenticated) ∧
    get_balanceRoute db none = .error .validationError ∧
    depositRoute db none a = (db, .error .validationError) ∧
    withdrawRoute db none a = (db, .error .validationError) := by
  have hauth : get_current_user db (some k) = .error .unauthenticated :=
    auth_scan_none h
  refine ⟨?_, ?_, ?_, rfl, rfl, rfl⟩ <;>
    simp [get_balanceRoute, depositRoute, withdrawRoute, hauth]

/-- Concrete instance of `bad_credential_no_state_change`: the empty
credential against the seed db. -/
theorem bad_credential_no_state_change_witness :
    depositRoute fake_users_db (some "") (.finite 9) =
      (fake_users_db, .error .unauthenticated) ∧
    get_balanceRoute fake_users_db (some "") = .error .unauthenticated :=
  ⟨(bad_credential_no_state_change fake_users_db "" (.finite 9)
     (by decide)).2.1,
   (bad_credential_no_state_change fake_users_db "" (.finite 9)
     (by decide)).1⟩
